import Mathlib

/-!
tcp-proxy: round-robin target selection, the retrying connector and the listener.

A shallow embedding of `proxy-server/app.go` and `proxy-server/proxy.go`.

* Go `int` values (ports, `App.Current`, the `try` counter) are `Int`.  The only
  increments in the modelled code are `app.Current++`, executed only after the
  index `app.Targets[app.Current]` succeeded (so `Current < len(Targets)`), and
  `try++`, executed at most once per tick of the one-second ticker; neither
  leaves the 64 bit range.
* A Go map is a total function into `Option`; `m[k] = v` is `Function.update`.
* The pointer `&apps[i]` stored in `targetLookup` is the index `i` into the
  `apps` slice that the server shares with it.
* Run-time panics are the `Except.error` results.
-/

namespace TcpProxy

/-! ## Data model (`app.go`, `config.go`) -/

/-- One entry of `Config.Apps`. -/
structure ConfigApp where
  Name : String
  Ports : List Int
  Targets : List String

/-- The parsed configuration file, `type Config struct`. -/
structure Config where
  Apps : List ConfigApp

/-- The Go struct `App`; `Ports` is the key set of `map[int]struct{}`. -/
structure App where
  Name : String
  Ports : List Int
  Targets : List String
  Current : Int
deriving DecidableEq, Repr

/-- The Go type `Apps []App`. -/
abbrev Apps := List App

/-- The function `NewApps`: every configured application with its ports put
into a set and `Current` left at its zero value. -/
def NewApps (cfg : Config) : Apps :=
  cfg.Apps.map fun a =>
    { Name := a.Name
      Targets := a.Targets
      Ports := a.Ports.foldl (fun set p => if p ∈ set then set else set ++ [p]) []
      Current := 0 }

/-- The Go map `map[int]*App`, pointers being indices into `Server.apps`. -/
abbrev PortMap := Int → Option Nat

/-- The fields of `Server` that target selection reads and writes. -/
structure Server where
  targetLookup : PortMap
  apps : Apps

/-- The inner loop of `NewServer`: `targetLookup[port] = &apps[i]` for every
port of application `i`. -/
def insertPorts (m : PortMap) (ports : List Int) (i : Nat) : PortMap :=
  ports.foldl (fun m port => Function.update m port (some i)) m

/-- The outer loop of `NewServer`, `for i := range apps`, from index `i` on. -/
def buildLookup : List App → Nat → PortMap → PortMap
  | [], _, m => m
  | a :: rest, i, m => buildLookup rest (i + 1) (insertPorts m a.Ports i)

/-- The function `NewServer`. It has no error result. -/
def NewServer (apps : Apps) : Server :=
  { apps := apps
    targetLookup := buildLookup apps 0 (fun _ => none) }

/-! ## Target selector (`Server.TargetURL`) -/

/-- The run-time panics of the modelled code. `invalidPointer` stands for a
lookup entry that is not an index of `apps`; `NewServer` never stores one. -/
inductive Panic where
  | divideByZero
  | indexOutOfRange
  | invalidPointer
deriving DecidableEq, Repr

/-- The method `Server.TargetURL`, run under `roundRobinMutex`: the returned
string and the server after the call, or the panic the call raises. -/
def TargetURL (s : Server) (port : Int) : Except Panic (String × Server) :=
  match s.targetLookup port with
  | none => .ok ("", s)
  | some i =>
    match s.apps[i]? with
    | none => .error .invalidPointer
    | some app =>
      let len : Int := app.Targets.length
      -- if app.Current == len(app.Targets) { app.Current %= len(app.Targets) }
      if app.Current = len ∧ len = 0 then .error .divideByZero
      else
        let cur : Int := if app.Current = len then Int.tmod app.Current len else app.Current
        -- if app.Current == 1 && len(app.Targets) == 1 { return "" }
        if cur = 1 ∧ len = 1 then
          .ok ("", { s with apps := s.apps.set i { app with Current := cur } })
        else if cur < 0 then .error .indexOutOfRange
        else
          -- target := app.Targets[app.Current]; app.Current++
          match app.Targets[cur.toNat]? with
          | none => .error .indexOutOfRange
          | some target =>
            .ok (target, { s with apps := s.apps.set i { app with Current := cur + 1 } })

/-- One executed `TargetURL` call of a run: the port and what the call gave. -/
abbrev CallRecord := Int × Except Panic String

/-- A sequence of `TargetURL` calls made one after the other, as serialised by
the mutex. A panic is not recovered anywhere, so it ends the run. -/
def runCalls : Server → List Int → List CallRecord
  | _, [] => []
  | s, port :: rest =>
    match TargetURL s port with
    | .error e => [(port, .error e)]
    | .ok (target, s') => (port, .ok target) :: runCalls s' rest

/-- The strings returned by the calls of a run that were made on `port`. -/
def resultsFor (port : Int) (run : List CallRecord) : List (Except Panic String) :=
  (run.filter fun r => r.1 = port).map Prod.snd

/-! ## Connector (`Server.connect`) -/

/-- An established connection, the non-nil `net.Conn` of a successful dial. -/
structure Conn where
  id : Nat
deriving DecidableEq, Repr

/-- The environment's answer to a dial: the number of dials made before this
one and the address dialled give the connection, or `none` for a dial error. -/
abbrev Dialer := Nat → String → Option Conn

/-- The two error values `connect` returns: `ErrTargetUnavailable` and
`ctx.Err()`. -/
inductive ConnectError where
  | ErrTargetUnavailable
  | ctxErr
deriving DecidableEq, Repr

/-- How a run of `connect` ends. `waiting` is a run still blocked in the
`select` of the retry loop when the observed environment ends. -/
inductive Outcome where
  | connected (conn : Conn) (targetAddr : String)
  | failed (err : ConnectError)
  | panicked (p : Panic)
  | waiting
deriving DecidableEq, Repr

/-- What a blocked `select` of the retry loop sees at one instant: whether
`ctx.Done()` is closed, whether `ticker.C` holds a tick, and the case the
runtime picks when both are ready. -/
structure Sample where
  ctxDone : Bool
  tick : Bool
  pickDone : Bool
deriving DecidableEq, Repr

/-- The case a `select` over `ctx.Done()` and `ticker.C` takes. -/
inductive Selected where
  | done
  | tick
  | blocked
deriving DecidableEq, Repr

/-- Go's `select` on the two channels: a ready case is taken, one of two ready
cases is picked by the runtime, and with none ready the goroutine stays
blocked. -/
def selectWait (x : Sample) : Selected :=
  if x.ctxDone && x.tick then (if x.pickDone then .done else .tick)
  else if x.ctxDone then .done
  else if x.tick then .tick
  else .blocked

/-- A finished (or still blocked) run of `connect`: its outcome, the addresses
passed to the dialer in order, the number of `TargetURL` calls it made, and the
server it leaves behind. -/
structure ConnectResult where
  outcome : Outcome
  dialed : List String
  resolves : Nat
  server : Server

/-- The labelled loop `outer:` of `connect`, run against the instants `waits`
at which its `select` is examined. `try_` is the Go variable `try`. -/
def retryLoop (dial : Dialer) (port retries : Int) :
    List Sample → Server → Int → List String → Nat → ConnectResult
  | [], s, _, dialed, resolves => ⟨.waiting, dialed, resolves, s⟩
  | x :: rest, s, try_, dialed, resolves =>
    match selectWait x with
    | .blocked => retryLoop dial port retries rest s try_ dialed resolves
    | .done => ⟨.failed .ctxErr, dialed, resolves, s⟩
    | .tick =>
      -- if try == retries { break outer }
      if try_ = retries then ⟨.failed .ErrTargetUnavailable, dialed, resolves, s⟩
      else
        match TargetURL s port with
        | .error e => ⟨.panicked e, dialed, resolves + 1, s⟩
        | .ok (targetAddr, s') =>
          if targetAddr = "" then
            ⟨.failed .ErrTargetUnavailable, dialed, resolves + 1, s'⟩
          else
            match dial dialed.length targetAddr with
            | none =>
              retryLoop dial port retries rest s' (try_ + 1) (dialed ++ [targetAddr])
                (resolves + 1)
            | some conn =>
              ⟨.connected conn targetAddr, dialed ++ [targetAddr], resolves + 1, s'⟩

/-- The method `Server.connect`. `doneAtEntry` is whether `ctx.Done()` is
closed when the first `select` (the one with a `default` case) runs. -/
def connect (dial : Dialer) (doneAtEntry : Bool) (waits : List Sample)
    (s : Server) (port retries : Int) : ConnectResult :=
  match TargetURL s port with
  | .error e => ⟨.panicked e, [], 1, s⟩
  | .ok (targetAddr, s') =>
    if targetAddr = "" then ⟨.failed .ErrTargetUnavailable, [], 1, s'⟩
    else if doneAtEntry then ⟨.failed .ctxErr, [], 1, s'⟩
    else
      match dial 0 targetAddr with
      | none => retryLoop dial port retries waits s' 1 [targetAddr] 1
      | some conn => ⟨.connected conn targetAddr, [targetAddr], 1, s'⟩

/-- The call `s.connect(ctx, port, 5)` made by `Server.serve`. -/
def serveConnect (dial : Dialer) (doneAtEntry : Bool) (waits : List Sample)
    (s : Server) (port : Int) : ConnectResult :=
  connect dial doneAtEntry waits s port 5

/-! ## Listener (`Server.listen`) -/

/-- The case taken by the `select` of one iteration of the loop of `listen`. -/
inductive ListenEvent where
  | newConn
  | ctxDone
deriving DecidableEq, Repr

/-- The goroutines `listen` has started and whether it has returned. -/
structure ListenState where
  acceptors : Nat
  handlers : Nat
  returned : Bool
deriving DecidableEq, Repr

/-- The `for` loop of `listen`: each iteration first starts a goroutine that
runs an accept loop on the listener, then takes one case of the `select`. -/
def listenLoop : List ListenEvent → ListenState → ListenState
  | [], st => { st with acceptors := st.acceptors + 1 }
  | .ctxDone :: _, st => { st with acceptors := st.acceptors + 1, returned := true }
  | .newConn :: rest, st =>
    listenLoop rest { st with acceptors := st.acceptors + 1, handlers := st.handlers + 1 }

/-- The method `Server.listen`; `listenOk` is whether `net.Listen` succeeded. -/
def listen (listenOk : Bool) (events : List ListenEvent) : ListenState :=
  if listenOk then listenLoop events ⟨0, 0, false⟩ else ⟨0, 0, true⟩

/-! ## Reachable servers -/

/-- The servers the program can hold: the one `NewServer` builds from the
registry `NewApps` returns, and every server a returning `TargetURL` call
leaves behind. -/
inductive Reachable : Server → Prop where
  | init (cfg : Config) : Reachable (NewServer (NewApps cfg))
  | step {s s1 : Server} {port : Int} {target : String} :
      Reachable s → TargetURL s port = .ok (target, s1) → Reachable s1

/-- The cursor of an application points into its target list or just past it,
the value `app.Current++` leaves after handing out the last target. -/
def CursorInRange (a : App) : Prop :=
  0 ≤ a.Current ∧ a.Current ≤ (a.Targets.length : Int)

/-- The server `s` with the cursor of application `i` (currently `app`) set to
`c`: the effect of the writes to `app.Current` through the pointer. -/
def setCursor (s : Server) (i : Nat) (app : App) (c : Int) : Server :=
  { s with apps := s.apps.set i { app with Current := c } }

/-- What one `TargetURL` call does to the application it found: the panic, or
the returned string and the new value of `Current`. It is the body of the `if`
of `TargetURL`, read off the application alone; `TargetURL_eq` shows that
`TargetURL` is this step applied to the application the port points at. -/
def cursorStep (app : App) : Except Panic (String × Int) :=
  let len : Int := app.Targets.length
  if app.Current = len ∧ len = 0 then .error .divideByZero
  else
    let cur : Int := if app.Current = len then Int.tmod app.Current len else app.Current
    if cur = 1 ∧ len = 1 then .ok ("", cur)
    else if cur < 0 then .error .indexOutOfRange
    else
      match app.Targets[cur.toNat]? with
      | none => .error .indexOutOfRange
      | some target => .ok (target, cur + 1)

/-- Two servers with the same port lookup whose applications agree everywhere
but at index `b`. -/
def AgreeOff (b : Nat) (s1 s2 : Server) : Prop :=
  s1.targetLookup = s2.targetLookup ∧ ∀ j, j ≠ b → s1.apps[j]? = s2.apps[j]?

/-- Application `b` of the server has a target and a cursor in range. -/
def Serviceable (b : Nat) (s : Server) : Prop :=
  ∃ (B : App) (c : Nat), s.apps[b]? = some B ∧ B.Targets ≠ [] ∧
    B.Current = (c : Int) ∧ c ≤ B.Targets.length

/-! ## Sample registries -/

/-- A registry of two applications with disjoint ports. -/
def sampleConfig : Config :=
  ⟨[⟨"web", [8080, 8081], ["10.0.0.1:80", "10.0.0.2:80", "10.0.0.3:80"]⟩,
    ⟨"db", [5432], ["10.0.1.1:5432"]⟩]⟩

/-- A registry in which two applications both list port 8080. -/
def duplicatePortConfig : Config :=
  ⟨[⟨"first", [8080], ["10.0.0.1:80"]⟩, ⟨"second", [8080], ["10.0.0.2:80", "10.0.0.3:80"]⟩]⟩

/-- A registry whose second application lists a port and has no target. -/
def emptyTargetsConfig : Config :=
  ⟨[⟨"web", [8080], ["10.0.0.1:80"]⟩, ⟨"idle", [9090], []⟩]⟩

/-! ## The port lookup built by `NewServer` -/

theorem insertPorts_apply (ports : List Int) (m : PortMap) (i : Nat) (p : Int) :
    insertPorts m ports i p = if p ∈ ports then some i else m p := by
  induction ports generalizing m with
  | nil => simp [insertPorts]
  | cons q ps ih =>
    have hstep : insertPorts m (q :: ps) i = insertPorts (Function.update m q (some i)) ps i := rfl
    rw [hstep, ih]
    by_cases hps : p ∈ ps
    · simp [hps]
    · by_cases hq : p = q
      · subst hq
        simp [hps]
      · simp [hps, hq, Function.update_noteq hq]

theorem buildLookup_unlisted (apps : List App) (i0 : Nat) (m : PortMap) (p : Int)
    (h : ∀ a ∈ apps, p ∉ a.Ports) : buildLookup apps i0 m p = m p := by
  induction apps generalizing i0 m with
  | nil => rfl
  | cons a rest ih =>
    have ha : p ∉ a.Ports := h a (List.mem_cons_self _ _)
    have hrest : ∀ b ∈ rest, p ∉ b.Ports := fun b hb => h b (List.mem_cons_of_mem _ hb)
    show buildLookup rest (i0 + 1) (insertPorts m a.Ports i0) p = m p
    rw [ih (i0 + 1) _ hrest, insertPorts_apply]
    simp [ha]

theorem buildLookup_last (pre : List App) (a : App) (post : List App) (i0 : Nat)
    (m : PortMap) (p : Int) (hp : p ∈ a.Ports) (h : ∀ b ∈ post, p ∉ b.Ports) :
    buildLookup (pre ++ a :: post) i0 m p = some (i0 + pre.length) := by
  induction pre generalizing i0 m with
  | nil =>
    show buildLookup post (i0 + 1) (insertPorts m a.Ports i0) p = some (i0 + 0)
    rw [buildLookup_unlisted post _ _ p h, insertPorts_apply]
    simp [hp]
  | cons b pre ih =>
    show buildLookup (pre ++ a :: post) (i0 + 1) (insertPorts m b.Ports i0) p = _
    rw [ih]
    simp only [List.length_cons]
    congr 1
    omega

theorem buildLookup_bound (apps : List App) (i0 : Nat) (m : PortMap)
    (hm : ∀ p j, m p = some j → j < i0) :
    ∀ p j, buildLookup apps i0 m p = some j → j < i0 + apps.length := by
  induction apps generalizing i0 m with
  | nil => intro p j h; exact Nat.lt_of_lt_of_le (hm p j h) (Nat.le_add_right _ _)
  | cons a rest ih =>
    intro p j h
    have hstep : ∀ q k, insertPorts m a.Ports i0 q = some k → k < i0 + 1 := by
      intro q k hq
      rw [insertPorts_apply] at hq
      by_cases hmem : q ∈ a.Ports
      · simp [hmem] at hq; omega
      · simp [hmem] at hq; exact Nat.lt_succ_of_lt (hm q k hq)
    have := ih (i0 + 1) _ hstep p j h
    simp only [List.length_cons]
    omega

theorem NewServer_lookup_bound (apps : Apps) (p : Int) (j : Nat)
    (h : (NewServer apps).targetLookup p = some j) : j < apps.length := by
  have := buildLookup_bound apps 0 (fun _ => none) (by intro p j h; cases h) p j h
  simpa using this

theorem NewServer_lookup_unlisted (apps : Apps) (p : Int)
    (h : ∀ a ∈ apps, p ∉ a.Ports) : (NewServer apps).targetLookup p = none :=
  buildLookup_unlisted apps 0 (fun _ => none) p h

theorem NewServer_lookup_last (pre : List App) (a : App) (post : List App) (p : Int)
    (hp : p ∈ a.Ports) (h : ∀ b ∈ post, p ∉ b.Ports) :
    (NewServer (pre ++ a :: post)).targetLookup p = some pre.length := by
  have := buildLookup_last pre a post 0 (fun _ => none) p hp h
  simpa [NewServer] using this

/-! ## One call of `TargetURL` -/

theorem TargetURL_unmapped (s : Server) (p : Int) (h : s.targetLookup p = none) :
    TargetURL s p = .ok ("", s) := by
  simp [TargetURL, h]

/-- A call on an owned port whose application has a target and a cursor in
range returns the target at the cursor (position `0` when the cursor is just
past the end) and leaves the cursor one past the returned position. -/
theorem TargetURL_owned (s : Server) (p : Int) (i : Nat) (app : App) (c : Nat)
    (hl : s.targetLookup p = some i) (ha : s.apps[i]? = some app)
    (hN : app.Targets ≠ []) (hc : app.Current = (c : Int)) (hle : c ≤ app.Targets.length) :
    TargetURL s p =
      .ok (app.Targets.getD (c % app.Targets.length) "",
           setCursor s i app ((c % app.Targets.length : Nat) + 1)) := by
  have hpos : 0 < app.Targets.length := List.length_pos.mpr hN
  unfold TargetURL
  simp only [hl, ha, hc]
  have hne : ¬ (((c : Int) = (app.Targets.length : Int)) ∧ (app.Targets.length : Int) = 0) := by
    rintro ⟨-, h0⟩; omega
  rw [if_neg hne]
  by_cases hcN : c = app.Targets.length
  · have hcur : (if (c : Int) = (app.Targets.length : Int) then
        Int.tmod (c : Int) (app.Targets.length : Int) else (c : Int)) = 0 := by
      rw [if_pos (by exact_mod_cast hcN), hcN, Int.tmod_self]
    simp only [hcur]
    have h1 : ¬ ((0 : Int) = 1 ∧ (app.Targets.length : Int) = 1) := by
      rintro ⟨h, -⟩; omega
    rw [if_neg h1, if_neg (by omega)]
    have hmod : c % app.Targets.length = 0 := by rw [hcN, Nat.mod_self]
    rw [hmod]
    obtain ⟨t, ht⟩ : ∃ t, app.Targets[0]? = some t := by
      cases hT : app.Targets with
      | nil => exact absurd hT hN
      | cons t ts => exact ⟨t, by simp⟩
    simp [ht, setCursor, List.getD]
  · have hlt : c < app.Targets.length := lt_of_le_of_ne hle hcN
    have hcur : (if (c : Int) = (app.Targets.length : Int) then
        Int.tmod (c : Int) (app.Targets.length : Int) else (c : Int)) = (c : Int) := by
      rw [if_neg (by exact_mod_cast hcN)]
    simp only [hcur]
    have h1 : ¬ ((c : Int) = 1 ∧ (app.Targets.length : Int) = 1) := by
      rintro ⟨h, h2⟩; omega
    rw [if_neg h1, if_neg (by omega)]
    have hmod : c % app.Targets.length = c := Nat.mod_eq_of_lt hlt
    rw [hmod]
    have ht : app.Targets[c]? = some app.Targets[c] := List.getElem?_eq_getElem hlt
    simp [ht, setCursor, List.getD]

theorem setCursor_lookup (s : Server) (i : Nat) (app : App) (c : Int) :
    (setCursor s i app c).targetLookup = s.targetLookup := rfl

theorem setCursor_length (s : Server) (i : Nat) (app : App) (c : Int) :
    (setCursor s i app c).apps.length = s.apps.length := by
  simp [setCursor]

theorem setCursor_get_self (s : Server) (i : Nat) (app : App) (c : Int)
    (ha : s.apps[i]? = some app) :
    (setCursor s i app c).apps[i]? = some { app with Current := c } := by
  have hi : i < s.apps.length := by
    by_contra hge
    rw [List.getElem?_eq_none (Nat.le_of_not_lt hge)] at ha
    cases ha
  simp [setCursor, List.getElem?_set, hi]

theorem setCursor_get_other (s : Server) (i j : Nat) (app : App) (c : Int) (h : j ≠ i) :
    (setCursor s i app c).apps[j]? = s.apps[j]? := by
  simp [setCursor, List.getElem?_set, Ne.symm h]

/-! ## Consecutive calls on one port -/

theorem runCalls_replicate (p : Int) (i : Nat) (n : Nat) :
    ∀ (s : Server) (app : App) (c : Nat),
      s.targetLookup p = some i → s.apps[i]? = some app → app.Targets ≠ [] →
      app.Current = (c : Int) → c ≤ app.Targets.length →
      runCalls s (List.replicate n p) =
        (List.range n).map fun k =>
          (p, Except.ok (app.Targets.getD ((c + k) % app.Targets.length) "")) := by
  induction n with
  | zero => intro s app c _ _ _ _ _; rfl
  | succ n ih =>
    intro s app c hl ha hN hc hle
    have hpos : 0 < app.Targets.length := List.length_pos.mpr hN
    have hcall := TargetURL_owned s p i app c hl ha hN hc hle
    have hnext := ih (setCursor s i app ((c % app.Targets.length : Nat) + 1))
      { app with Current := ((c % app.Targets.length : Nat) + 1 : Int) }
      (c % app.Targets.length + 1) hl (setCursor_get_self s i app _ ha) hN
      (by push_cast; rfl) (Nat.succ_le_of_lt (Nat.mod_lt _ hpos))
    rw [List.replicate_succ, List.range_succ_eq_map, List.map_cons, List.map_map]
    simp only [runCalls, hcall]
    rw [hnext]
    congr 1
    apply List.map_congr_left
    intro k _
    simp only [Function.comp, Nat.succ_eq_add_one]
    have : (c % app.Targets.length + 1 + k) % app.Targets.length
        = (c + (k + 1)) % app.Targets.length := by
      rw [Nat.add_assoc, Nat.mod_add_mod, Nat.add_comm 1 k]
    rw [this]

theorem resultsFor_map_same (p : Int) (f : Nat → Except Panic String) (l : List Nat) :
    resultsFor p (l.map fun k => (p, f k)) = l.map f := by
  induction l with
  | nil => rfl
  | cons a l ih =>
    simp only [resultsFor, List.map_cons] at ih ⊢
    rw [List.filter_cons_of_pos (by simp), List.map_cons, ih]

theorem drop_map_range {α : Type} (f : Nat → α) (k n : Nat) :
    ((List.range (k + n)).map f).drop k = (List.range n).map fun j => f (k + j) := by
  apply List.ext_getElem
  · simp
  · intro j h1 h2
    simp

theorem rotate_eq_map_range (l : List String) (k : Nat) (hl : l ≠ []) :
    (l.rotate (k % l.length)).map (Except.ok : String → Except Panic String) =
      (List.range l.length).map fun j => Except.ok (l.getD ((k + j) % l.length) "") := by
  have hpos : 0 < l.length := List.length_pos.mpr hl
  apply List.ext_getElem
  · simp
  · intro j h1 h2
    have hj : j < l.length := by simpa using h2
    have hlt : (k + j) % l.length < l.length := Nat.mod_lt _ hpos
    simp only [List.getElem_map, List.getElem_range, List.getElem_rotate]
    rw [List.getD_eq_getElem l "" hlt]
    congr 2
    rw [Nat.add_comm j, Nat.mod_add_mod]

theorem NewApps_current (cfg : Config) (a : App) (h : a ∈ NewApps cfg) : a.Current = 0 := by
  simp only [NewApps, List.mem_map] at h
  obtain ⟨x, -, rfl⟩ := h
  rfl

/-! ## `TargetURL` acts on the application the port points at only -/

theorem TargetURL_eq (s : Server) (p : Int) :
    TargetURL s p =
      match s.targetLookup p with
      | none => .ok ("", s)
      | some j =>
        match s.apps[j]? with
        | none => .error .invalidPointer
        | some app =>
          match cursorStep app with
          | .error e => .error e
          | .ok (t, c) => .ok (t, setCursor s j app c) := by
  unfold TargetURL
  cases s.targetLookup p with
  | none => rfl
  | some j =>
    simp only
    cases s.apps[j]? with
    | none => rfl
    | some app =>
      simp only [cursorStep, setCursor]
      generalize (if app.Current = (app.Targets.length : Int) then
        Int.tmod app.Current (app.Targets.length : Int) else app.Current) = cur
      split_ifs
      · rfl
      · rfl
      · rfl
      · cases app.Targets[cur.toNat]? <;> rfl

theorem cursorStep_range (app : App) (t : String) (c : Int)
    (h : cursorStep app = .ok (t, c)) : 0 ≤ c ∧ c ≤ (app.Targets.length : Int) := by
  unfold cursorStep at h
  simp only at h
  generalize (if app.Current = (app.Targets.length : Int) then
    Int.tmod app.Current (app.Targets.length : Int) else app.Current) = cur at h
  split_ifs at h with h1 h2 h3
  · simp only [Except.ok.injEq, Prod.mk.injEq] at h
    omega
  · cases hget : app.Targets[cur.toNat]? with
    | none => rw [hget] at h; cases h
    | some target =>
      rw [hget] at h
      simp only [Except.ok.injEq, Prod.mk.injEq] at h
      have hlt : cur.toNat < app.Targets.length := by
        by_contra hge
        rw [List.getElem?_eq_none (Nat.le_of_not_lt hge)] at hget
        cases hget
      omega

theorem TargetURL_cases (s s1 : Server) (p : Int) (t : String)
    (h : TargetURL s p = .ok (t, s1)) :
    (s.targetLookup p = none ∧ t = "" ∧ s1 = s) ∨
    ∃ j app c, s.targetLookup p = some j ∧ s.apps[j]? = some app ∧
      cursorStep app = .ok (t, c) ∧ s1 = setCursor s j app c := by
  rw [TargetURL_eq] at h
  cases hl : s.targetLookup p with
  | none =>
    rw [hl] at h
    simp only [Except.ok.injEq, Prod.mk.injEq] at h
    exact Or.inl ⟨rfl, h.1.symm, h.2.symm⟩
  | some j =>
    rw [hl] at h
    simp only at h
    cases ha : s.apps[j]? with
    | none => rw [ha] at h; cases h
    | some app =>
      rw [ha] at h
      simp only at h
      cases hstep : cursorStep app with
      | error e => rw [hstep] at h; cases h
      | ok r =>
        obtain ⟨t1, c⟩ := r
        rw [hstep] at h
        simp only [Except.ok.injEq, Prod.mk.injEq] at h
        refine Or.inr ⟨j, app, c, rfl, ha, ?_, h.2.symm⟩
        rw [hstep, h.1]

/-! ## Invariants of reachable servers -/

theorem Reachable_cursor (s : Server) (h : Reachable s) :
    ∀ a ∈ s.apps, CursorInRange a := by
  induction h with
  | init cfg =>
    intro a ha
    have h0 : a.Current = 0 := NewApps_current cfg a ha
    unfold CursorInRange
    rw [h0]
    exact ⟨le_refl _, Int.natCast_nonneg _⟩
  | step _ hcall ih =>
    intro a ha
    rcases TargetURL_cases _ _ _ _ hcall with ⟨-, -, rfl⟩ | ⟨j, app, c, -, -, hstep, rfl⟩
    · exact ih a ha
    · rcases List.mem_or_eq_of_mem_set ha with hmem | rfl
      · exact ih a hmem
      · exact cursorStep_range app _ c hstep

theorem Reachable_cursor_at (s : Server) (h : Reachable s) (i : Nat) (app : App)
    (ha : s.apps[i]? = some app) :
    ∃ c : Nat, app.Current = (c : Int) ∧ c ≤ app.Targets.length := by
  obtain ⟨h0, h1⟩ := Reachable_cursor s h app (List.getElem?_mem ha)
  refine ⟨app.Current.toNat, (Int.toNat_of_nonneg h0).symm, ?_⟩
  omega

/-! ## Claims about the target selector -/

/-- C1: round-robin completeness and order. On the server `NewServer` builds
from the registry of `NewApps`, when the port lookup gives port `p` to
application `i` and that application has `N ≥ 1` targets, the `(k+1)`-th of
consecutive `TargetURL(p)` calls returns `Targets[k mod N]`, for every `k`; and
the `N` calls that follow any `k` calls return the target list rotated to
position `k mod N`: every position once, in configured order. -/
theorem targetURL_round_robin (cfg : Config) (p : Int) (i : Nat) (app : App)
    (hown : (NewServer (NewApps cfg)).targetLookup p = some i)
    (happ : (NewApps cfg)[i]? = some app)
    (hN : 1 ≤ app.Targets.length) :
    (∀ k : Nat, ∃ t, app.Targets[k % app.Targets.length]? = some t ∧
      (runCalls (NewServer (NewApps cfg)) (List.replicate (k + 1) p))[k]? =
        some (p, .ok t)) ∧
    (∀ k : Nat,
      (resultsFor p (runCalls (NewServer (NewApps cfg))
        (List.replicate (k + app.Targets.length) p))).drop k =
      (app.Targets.rotate (k % app.Targets.length)).map .ok) := by
  have hne : app.Targets ≠ [] := List.length_pos.mp hN
  have h0 : app.Current = ((0 : Nat) : Int) := by
    simpa using NewApps_current cfg app (List.getElem?_mem happ)
  have hrun := fun n =>
    runCalls_replicate p i n (NewServer (NewApps cfg)) app 0 hown happ hne h0 (Nat.zero_le _)
  constructor
  · intro k
    have hlt : k % app.Targets.length < app.Targets.length := Nat.mod_lt _ hN
    refine ⟨app.Targets[k % app.Targets.length], List.getElem?_eq_getElem hlt, ?_⟩
    rw [hrun (k + 1), List.getElem?_map, List.getElem?_range (Nat.lt_succ_self k)]
    simp only [Option.map_some', Nat.zero_add]
    rw [List.getD_eq_getElem _ _ hlt]
  · intro k
    rw [hrun, resultsFor_map_same, drop_map_range, rotate_eq_map_range _ _ hne]
    simp

/-- C1, at the sample registry: the fifth call on port 8080 returns the second
of the three targets, and calls five to seven return the list rotated by one. -/
theorem targetURL_round_robin_witness :
    (NewServer (NewApps sampleConfig)).targetLookup 8080 = some 0 ∧
    (runCalls (NewServer (NewApps sampleConfig)) (List.replicate 5 8080))[4]? =
      some (8080, .ok "10.0.0.2:80") ∧
    (resultsFor 8080 (runCalls (NewServer (NewApps sampleConfig))
      (List.replicate 7 8080))).drop 4 =
      [.ok "10.0.0.2:80", .ok "10.0.0.3:80", .ok "10.0.0.1:80"] := by
  have h := targetURL_round_robin sampleConfig 8080 0
    ⟨"web", [8080, 8081], ["10.0.0.1:80", "10.0.0.2:80", "10.0.0.3:80"], 0⟩
    rfl rfl (by decide)
  refine ⟨rfl, ?_, ?_⟩
  · obtain ⟨t, ht, hk⟩ := h.1 4
    have : t = "10.0.0.2:80" := by
      simpa using ht.symm
    rw [← this]
    exact hk
  · exact h.2 4

/-- C2: a single-target application is never denied service. When the port
lookup of the freshly built server gives port `p` to an application whose
target list is `[t]`, any number `n` of consecutive `TargetURL(p)` calls all
return `t`; none panics, and for an address `t` (a non-empty string) none
returns the empty "no target" string. -/
theorem single_target_always_served (cfg : Config) (p : Int) (i : Nat) (app : App)
    (t : String)
    (hown : (NewServer (NewApps cfg)).targetLookup p = some i)
    (happ : (NewApps cfg)[i]? = some app)
    (hT : app.Targets = [t]) :
    (∀ n : Nat, runCalls (NewServer (NewApps cfg)) (List.replicate n p) =
      List.replicate n (p, .ok t)) ∧
    (t ≠ "" → ∀ n : Nat,
      (p, Except.ok "") ∉ runCalls (NewServer (NewApps cfg)) (List.replicate n p)) := by
  have hne : app.Targets ≠ [] := by rw [hT]; simp
  have h0 : app.Current = ((0 : Nat) : Int) := by
    simpa using NewApps_current cfg app (List.getElem?_mem happ)
  have hrun : ∀ n : Nat, runCalls (NewServer (NewApps cfg)) (List.replicate n p) =
      List.replicate n (p, .ok t) := by
    intro n
    rw [runCalls_replicate p i n (NewServer (NewApps cfg)) app 0 hown happ hne h0
      (Nat.zero_le _), hT]
    simp [Nat.mod_one, List.getD]
  refine ⟨hrun, ?_⟩
  intro ht n hmem
  rw [hrun n] at hmem
  have := List.eq_of_mem_replicate hmem
  simp only [Prod.mk.injEq, Except.ok.injEq, true_and] at this
  exact ht this.symm

/-- C2, at the sample registry: four calls on the port of the one-target
application all return its target. -/
theorem single_target_always_served_witness :
    (NewServer (NewApps sampleConfig)).targetLookup 5432 = some 1 ∧
    runCalls (NewServer (NewApps sampleConfig)) (List.replicate 4 5432) =
      List.replicate 4 (5432, .ok "10.0.1.1:5432") :=
  ⟨rfl, (single_target_always_served sampleConfig 5432 1
    ⟨"db", [5432], ["10.0.1.1:5432"], 0⟩ "10.0.1.1:5432" rfl rfl rfl).1 4⟩

/-- C3 fails on the code: for an application that owns a port and has no
target, the first `TargetURL` call on the port evaluates `app.Current %= 0`
and panics with a division by zero; `connect` panics with it instead of
returning `ErrTargetUnavailable`. -/
theorem empty_targets_divide_by_zero :
    (NewServer (NewApps emptyTargetsConfig)).targetLookup 9090 = some 1 ∧
    runCalls (NewServer (NewApps emptyTargetsConfig)) [9090] =
      [(9090, .error .divideByZero)] ∧
    (serveConnect (fun _ _ => none) false [] (NewServer (NewApps emptyTargetsConfig))
      9090).outcome = .panicked .divideByZero :=
  ⟨rfl, rfl, rfl⟩

/-- C4: an unmapped port. For a port `p` that no application of the registry
lists, on every server that carries the port lookup built from the registry
(whatever its cursors), `TargetURL(p)` returns the empty string and leaves the
server as it was, and `connect(p, r)` returns `ErrTargetUnavailable` after that
one resolve with no dial, whatever the dialer, the context, the ticks and `r`. -/
theorem unmapped_port_unavailable (apps : Apps) (p : Int)
    (hp : ∀ a ∈ apps, p ∉ a.Ports)
    (s : Server) (hs : s.targetLookup = (NewServer apps).targetLookup) :
    TargetURL s p = .ok ("", s) ∧
    ∀ (dial : Dialer) (doneAtEntry : Bool) (waits : List Sample) (r : Int),
      connect dial doneAtEntry waits s p r =
        ⟨.failed .ErrTargetUnavailable, [], 1, s⟩ := by
  have hnone : s.targetLookup p = none := by
    rw [hs]; exact NewServer_lookup_unlisted apps p hp
  have hcall := TargetURL_unmapped s p hnone
  refine ⟨hcall, ?_⟩
  intro dial doneAtEntry waits r
  simp [connect, hcall]

/-- C4, at the sample registry and port 1234, with a dialer that would accept
every dial and five ticks at hand. -/
theorem unmapped_port_unavailable_witness :
    (∀ a ∈ NewApps sampleConfig, (1234 : Int) ∉ a.Ports) ∧
    TargetURL (NewServer (NewApps sampleConfig)) 1234 =
      .ok ("", NewServer (NewApps sampleConfig)) ∧
    connect (fun _ _ => some ⟨0⟩) false (List.replicate 5 ⟨false, true, false⟩)
      (NewServer (NewApps sampleConfig)) 1234 5 =
        ⟨.failed .ErrTargetUnavailable, [], 1, NewServer (NewApps sampleConfig)⟩ := by
  have hp : ∀ a ∈ NewApps sampleConfig, (1234 : Int) ∉ a.Ports := by decide
  have h := unmapped_port_unavailable (NewApps sampleConfig) 1234 hp
    (NewServer (NewApps sampleConfig)) rfl
  exact ⟨hp, h.1, h.2 _ _ _ _⟩

/-- C8 fails on the code: `NewServer` has no failing result. From the registry
in which two applications both list port 8080 it builds a server whose lookup
gives the port to the second one, and resolutions on the port rotate over the
second application's targets. -/
theorem duplicate_port_not_rejected :
    (NewApps duplicatePortConfig).map (fun a => decide ((8080 : Int) ∈ a.Ports)) =
      [true, true] ∧
    (NewServer (NewApps duplicatePortConfig)).targetLookup 8080 = some 1 ∧
    runCalls (NewServer (NewApps duplicatePortConfig)) [8080, 8080, 8080] =
      [(8080, .ok "10.0.0.2:80"), (8080, .ok "10.0.0.3:80"), (8080, .ok "10.0.0.2:80")] :=
  ⟨rfl, rfl, rfl⟩

/-- C8 as amended: `NewServer` returns a server for every registry, keeping the
registry as it is, and a port listed by several applications is given to the
last application of the registry that lists it. -/
theorem duplicate_port_last_wins (pre : List App) (a : App) (post : List App) (p : Int)
    (hp : p ∈ a.Ports) (hpost : ∀ b ∈ post, p ∉ b.Ports) :
    (NewServer (pre ++ a :: post)).apps = pre ++ a :: post ∧
    (NewServer (pre ++ a :: post)).targetLookup p = some pre.length :=
  ⟨rfl, NewServer_lookup_last pre a post p hp hpost⟩

/-- C8 as amended, at a registry whose two applications both list port 8080. -/
theorem duplicate_port_last_wins_witness :
    (8080 : Int) ∈ [8080] ∧
    (NewServer [⟨"first", [8080], ["10.0.0.1:80"], 0⟩,
        ⟨"second", [8080], ["10.0.0.2:80"], 0⟩]).targetLookup 8080 = some 1 :=
  ⟨by decide, (duplicate_port_last_wins [⟨"first", [8080], ["10.0.0.1:80"], 0⟩]
    ⟨"second", [8080], ["10.0.0.2:80"], 0⟩ [] 8080 (by decide) (by simp)).2⟩

/-! ## The retry loop of `connect` -/

theorem getD_mem_of_lt (l : List String) (k : Nat) (h : k < l.length) :
    l.getD k "" ∈ l := by
  rw [List.getD_eq_getElem l "" h]
  exact List.getElem_mem h

theorem selectWait_tick (x : Sample) (h : x.ctxDone = false) (ht : x.tick = true) :
    selectWait x = .tick := by
  simp [selectWait, h, ht]

theorem selectWait_blocked (x : Sample) (h : x.ctxDone = false) (ht : x.tick = false) :
    selectWait x = .blocked := by
  simp [selectWait, h, ht]

theorem selectWait_done (x : Sample) (h : x.ctxDone = true) (ht : x.tick = false) :
    selectWait x = .done := by
  simp [selectWait, h, ht]

/-- With every dial failing and the context never done, the loop entered with
`try_ + d = retries` dials `d` more times and gives up on tick `d + 1`. -/
theorem retryLoop_exhaust (dial : Dialer) (p retries : Int) (i : Nat)
    (hfail : ∀ n a, dial n a = none) (waits : List Sample) :
    ∀ (s : Server) (app : App) (c : Nat) (try_ : Int) (dialed : List String)
      (resolves d : Nat),
      s.targetLookup p = some i → s.apps[i]? = some app → app.Targets ≠ [] →
      (∀ t ∈ app.Targets, t ≠ "") → app.Current = (c : Int) → c ≤ app.Targets.length →
      (∀ x ∈ waits, x.ctxDone = false) → try_ + (d : Int) = retries →
      d + 1 ≤ waits.countP (fun x => x.tick) →
      (retryLoop dial p retries waits s try_ dialed resolves).outcome =
          .failed .ErrTargetUnavailable ∧
        (retryLoop dial p retries waits s try_ dialed resolves).dialed.length =
          dialed.length + d ∧
        (retryLoop dial p retries waits s try_ dialed resolves).resolves = resolves + d := by
  induction waits with
  | nil =>
    intro s app c try_ dialed resolves d _ _ _ _ _ _ _ _ hticks
    simp at hticks
  | cons x rest ih =>
    intro s app c try_ dialed resolves d hl ha hN haddr hc hle hctx htry hticks
    have hx : x.ctxDone = false := hctx x (List.mem_cons_self _ _)
    have hrest : ∀ y ∈ rest, y.ctxDone = false := fun y hy => hctx y (List.mem_cons_of_mem _ hy)
    cases htick : x.tick with
    | false =>
      have hsel := selectWait_blocked x hx htick
      have hcount : d + 1 ≤ rest.countP (fun x => x.tick) := by
        simpa [List.countP_cons, htick] using hticks
      simp only [retryLoop, hsel]
      exact ih s app c try_ dialed resolves d hl ha hN haddr hc hle hrest htry hcount
    | true =>
      have hsel := selectWait_tick x hx htick
      have hcount : d ≤ rest.countP (fun x => x.tick) := by
        simpa [List.countP_cons, htick] using hticks
      cases d with
      | zero =>
        have : try_ = retries := by simpa using htry
        simp [retryLoop, hsel, this]
      | succ d =>
        have hne : try_ ≠ retries := by
          intro h; rw [h] at htry; push_cast at htry; omega
        have hpos : 0 < app.Targets.length := List.length_pos.mpr hN
        have hcall := TargetURL_owned s p i app c hl ha hN hc hle
        have hmem := getD_mem_of_lt app.Targets _ (Nat.mod_lt c hpos)
        have hta := haddr _ hmem
        simp only [retryLoop, hsel, if_neg hne, hcall, if_neg hta, hfail]
        have hnext := ih (setCursor s i app ((c % app.Targets.length : Nat) + 1))
          { app with Current := ((c % app.Targets.length : Nat) + 1 : Int) }
          (c % app.Targets.length + 1) (try_ + 1)
          (dialed ++ [app.Targets.getD (c % app.Targets.length) ""]) (resolves + 1) d
          hl (setCursor_get_self s i app _ ha) hN haddr (by push_cast; rfl)
          (Nat.succ_le_of_lt (Nat.mod_lt _ hpos)) hrest
          (by rw [← htry]; push_cast; ring) hcount
        refine ⟨hnext.1, ?_, ?_⟩
        · rw [hnext.2.1, List.length_append, List.length_singleton]; omega
        · rw [hnext.2.2]; omega

/-- With every dial failing and the context never done, the loop entered with
`try_ + d = retries` that sees at most `d` ticks has dialled once per tick and
is still blocked in its `select`: it has not given up. -/
theorem retryLoop_waiting (dial : Dialer) (p retries : Int) (i : Nat)
    (hfail : ∀ n a, dial n a = none) (waits : List Sample) :
    ∀ (s : Server) (app : App) (c : Nat) (try_ : Int) (dialed : List String)
      (resolves d : Nat),
      s.targetLookup p = some i → s.apps[i]? = some app → app.Targets ≠ [] →
      (∀ t ∈ app.Targets, t ≠ "") → app.Current = (c : Int) → c ≤ app.Targets.length →
      (∀ x ∈ waits, x.ctxDone = false) → try_ + (d : Int) = retries →
      waits.countP (fun x => x.tick) ≤ d →
      (retryLoop dial p retries waits s try_ dialed resolves).outcome = .waiting ∧
        (retryLoop dial p retries waits s try_ dialed resolves).dialed.length =
          dialed.length + waits.countP (fun x => x.tick) ∧
        (retryLoop dial p retries waits s try_ dialed resolves).resolves =
          resolves + waits.countP (fun x => x.tick) := by
  induction waits with
  | nil =>
    intro s app c try_ dialed resolves d _ _ _ _ _ _ _ _ _
    exact ⟨rfl, rfl, rfl⟩
  | cons x rest ih =>
    intro s app c try_ dialed resolves d hl ha hN haddr hc hle hctx htry hticks
    have hx : x.ctxDone = false := hctx x (List.mem_cons_self _ _)
    have hrest : ∀ y ∈ rest, y.ctxDone = false := fun y hy => hctx y (List.mem_cons_of_mem _ hy)
    cases htick : x.tick with
    | false =>
      have hsel := selectWait_blocked x hx htick
      have hcp : (x :: rest).countP (fun x => x.tick) = rest.countP (fun x => x.tick) := by
        simp [List.countP_cons, htick]
      rw [hcp] at hticks ⊢
      simp only [retryLoop, hsel]
      exact ih s app c try_ dialed resolves d hl ha hN haddr hc hle hrest htry hticks
    | true =>
      have hsel := selectWait_tick x hx htick
      have hcp : (x :: rest).countP (fun x => x.tick) =
          rest.countP (fun x => x.tick) + 1 := by
        simp [List.countP_cons, htick]
      rw [hcp] at hticks ⊢
      cases d with
      | zero => omega
      | succ d =>
        have hne : try_ ≠ retries := by
          intro h; rw [h] at htry; push_cast at htry; omega
        have hpos : 0 < app.Targets.length := List.length_pos.mpr hN
        have hcall := TargetURL_owned s p i app c hl ha hN hc hle
        have hta := haddr _ (getD_mem_of_lt app.Targets _ (Nat.mod_lt c hpos))
        simp only [retryLoop, hsel, if_neg hne, hcall, if_neg hta, hfail]
        have hnext := ih (setCursor s i app ((c % app.Targets.length : Nat) + 1))
          { app with Current := ((c % app.Targets.length : Nat) + 1 : Int) }
          (c % app.Targets.length + 1) (try_ + 1)
          (dialed ++ [app.Targets.getD (c % app.Targets.length) ""]) (resolves + 1) d
          hl (setCursor_get_self s i app _ ha) hN haddr (by push_cast; rfl)
          (Nat.succ_le_of_lt (Nat.mod_lt _ hpos)) hrest
          (by rw [← htry]; push_cast; ring) (by omega)
        refine ⟨hnext.1, ?_, ?_⟩
        · rw [hnext.2.1, List.length_append, List.length_singleton]; omega
        · rw [hnext.2.2]; omega

/-- With the context never done, the next `m` dials failing and the one after
them accepted, the loop entered with `try_ + m < retries` returns the accepted
connection and the address of the `(m+1)`-th resolve it makes. -/
theorem retryLoop_success (dial : Dialer) (p retries : Int) (i : Nat)
    (waits : List Sample) :
    ∀ (s : Server) (app : App) (c : Nat) (try_ : Int) (dialed : List String)
      (resolves m : Nat),
      s.targetLookup p = some i → s.apps[i]? = some app → app.Targets ≠ [] →
      (∀ t ∈ app.Targets, t ≠ "") → app.Current = (c : Int) → c ≤ app.Targets.length →
      (∀ x ∈ waits, x.ctxDone = false) →
      (∀ j, j < dialed.length + m → ∀ a, dial j a = none) →
      (∀ a, (dial (dialed.length + m) a).isSome = true) →
      try_ + (m : Int) < retries →
      m + 1 ≤ waits.countP (fun x => x.tick) →
      ∃ addr conn,
        app.Targets[(c + m) % app.Targets.length]? = some addr ∧
        dial (dialed.length + m) addr = some conn ∧
        (retryLoop dial p retries waits s try_ dialed resolves).outcome =
          .connected conn addr ∧
        (retryLoop dial p retries waits s try_ dialed resolves).dialed.length =
          dialed.length + m + 1 ∧
        (retryLoop dial p retries waits s try_ dialed resolves).dialed.getLast? =
          some addr ∧
        (retryLoop dial p retries waits s try_ dialed resolves).resolves =
          resolves + m + 1 := by
  induction waits with
  | nil =>
    intro s app c try_ dialed resolves m _ _ _ _ _ _ _ _ _ _ hticks
    simp at hticks
  | cons x rest ih =>
    intro s app c try_ dialed resolves m hl ha hN haddr hc hle hctx hfail hok htry hticks
    have hx : x.ctxDone = false := hctx x (List.mem_cons_self _ _)
    have hrest : ∀ y ∈ rest, y.ctxDone = false := fun y hy => hctx y (List.mem_cons_of_mem _ hy)
    cases htick : x.tick with
    | false =>
      have hsel := selectWait_blocked x hx htick
      have hcount : m + 1 ≤ rest.countP (fun x => x.tick) := by
        simpa [List.countP_cons, htick] using hticks
      simp only [retryLoop, hsel]
      exact ih s app c try_ dialed resolves m hl ha hN haddr hc hle hrest hfail hok htry hcount
    | true =>
      have hsel := selectWait_tick x hx htick
      have hcount : m ≤ rest.countP (fun x => x.tick) := by
        simpa [List.countP_cons, htick] using hticks
      have hne : try_ ≠ retries := by
        intro h; rw [h] at htry; omega
      have hpos : 0 < app.Targets.length := List.length_pos.mpr hN
      have hlt : c % app.Targets.length < app.Targets.length := Nat.mod_lt c hpos
      have hcall := TargetURL_owned s p i app c hl ha hN hc hle
      have hta := haddr _ (getD_mem_of_lt app.Targets _ hlt)
      cases m with
      | zero =>
        obtain ⟨conn, hconn⟩ := Option.isSome_iff_exists.mp
          (hok (app.Targets.getD (c % app.Targets.length) ""))
        rw [Nat.add_zero] at hconn
        refine ⟨app.Targets.getD (c % app.Targets.length) "", conn, ?_, hconn, ?_⟩
        · rw [Nat.add_zero, List.getD_eq_getElem _ _ hlt]
          exact List.getElem?_eq_getElem hlt
        · simp only [retryLoop, hsel, if_neg hne, hcall, if_neg hta, hconn]
          exact ⟨trivial, by rw [List.length_append, List.length_singleton],
            List.getLast?_concat _, trivial⟩
      | succ m =>
        have hnone : dial dialed.length (app.Targets.getD (c % app.Targets.length) "") = none :=
          hfail _ (by omega) _
        have hlen : (dialed ++ [app.Targets.getD (c % app.Targets.length) ""]).length + m
            = dialed.length + (m + 1) := by
          rw [List.length_append, List.length_singleton]; omega
        simp only [retryLoop, hsel, if_neg hne, hcall, if_neg hta, hnone]
        obtain ⟨addr, conn, h1, h2, h3, h4, h5, h6⟩ :=
          ih (setCursor s i app ((c % app.Targets.length : Nat) + 1))
            { app with Current := ((c % app.Targets.length : Nat) + 1 : Int) }
            (c % app.Targets.length + 1) (try_ + 1)
            (dialed ++ [app.Targets.getD (c % app.Targets.length) ""]) (resolves + 1) m
            hl (setCursor_get_self s i app _ ha) hN haddr (by push_cast; rfl)
            (Nat.succ_le_of_lt hlt) hrest
            (by rw [hlen]; exact hfail) (by rw [hlen]; exact hok)
            (by push_cast at htry; omega) hcount
        rw [hlen] at h2 h4
        have hidx : (c % app.Targets.length + 1 + m) % app.Targets.length
            = (c + (m + 1)) % app.Targets.length := by
          rw [Nat.add_assoc, Nat.mod_add_mod, Nat.add_comm 1 m]
        refine ⟨addr, conn, ?_, h2, h3, ?_, h5, ?_⟩
        · rw [← hidx]; exact h1
        · rw [h4]
        · rw [h6]; omega

/-! ## Claims about the connector -/

/-- C5 fails on the code: with every dial failing, the context never done and
ten ticks at hand, `connect(8080, 5)` returns `ErrTargetUnavailable` after five
dials, not six. The first dial already counts: `try` is 1 when the loop is
entered, and the loop breaks when `try == retries`. -/
theorem connect_budget_is_five_dials :
    (serveConnect (fun _ _ => none) false (List.replicate 10 ⟨false, true, false⟩)
      (NewServer (NewApps sampleConfig)) 8080).outcome = .failed .ErrTargetUnavailable ∧
    (serveConnect (fun _ _ => none) false (List.replicate 10 ⟨false, true, false⟩)
      (NewServer (NewApps sampleConfig)) 8080).dialed =
      ["10.0.0.1:80", "10.0.0.2:80", "10.0.0.3:80", "10.0.0.1:80", "10.0.0.2:80"] :=
  ⟨rfl, rfl⟩

/-- C5 as amended: the budget of `connect(p, 5)` is five dials, the immediate
one and four retries, and `connect` gives up on the fifth tick. On a reachable
server, for a port whose application has at least one target, all of them
addresses (non-empty strings), when every dial fails and the context is never
done: once five ticks have arrived `connect(p, 5)` has returned
`ErrTargetUnavailable` after exactly five resolves and five dials; and while
fewer than five ticks have arrived it has not returned, having made one dial
more than the ticks it has seen (so after the fifth failed dial, made on the
fourth tick, it still waits for the fifth tick). -/
theorem connect_retry_budget (dial : Dialer) (waits : List Sample) (s : Server)
    (p : Int) (i : Nat) (app : App)
    (hr : Reachable s) (hl : s.targetLookup p = some i) (ha : s.apps[i]? = some app)
    (hN : 1 ≤ app.Targets.length) (haddr : ∀ t ∈ app.Targets, t ≠ "")
    (hfail : ∀ n a, dial n a = none)
    (hctx : ∀ x ∈ waits, x.ctxDone = false) :
    (5 ≤ waits.countP (fun x => x.tick) →
      (serveConnect dial false waits s p).outcome = .failed .ErrTargetUnavailable ∧
      (serveConnect dial false waits s p).dialed.length = 5 ∧
      (serveConnect dial false waits s p).resolves = 5) ∧
    (waits.countP (fun x => x.tick) < 5 →
      (serveConnect dial false waits s p).outcome = .waiting ∧
      (serveConnect dial false waits s p).dialed.length =
        waits.countP (fun x => x.tick) + 1 ∧
      (serveConnect dial false waits s p).resolves =
        waits.countP (fun x => x.tick) + 1) := by
  have hne : app.Targets ≠ [] := List.length_pos.mp hN
  obtain ⟨c, hc, hle⟩ := Reachable_cursor_at s hr i app ha
  have hlt : c % app.Targets.length < app.Targets.length := Nat.mod_lt c hN
  have hcall := TargetURL_owned s p i app c hl ha hne hc hle
  have hta := haddr _ (getD_mem_of_lt app.Targets _ hlt)
  constructor
  · intro hticks
    have hloop := retryLoop_exhaust dial p 5 i hfail waits
      (setCursor s i app ((c % app.Targets.length : Nat) + 1))
      { app with Current := ((c % app.Targets.length : Nat) + 1 : Int) }
      (c % app.Targets.length + 1) 1 [app.Targets.getD (c % app.Targets.length) ""] 1 4
      hl (setCursor_get_self s i app _ ha) hne haddr (by push_cast; rfl)
      (Nat.succ_le_of_lt hlt) hctx (by norm_num) hticks
    simp only [serveConnect, connect, hcall, if_neg hta, hfail]
    simpa using hloop
  · intro hticks
    have hloop := retryLoop_waiting dial p 5 i hfail waits
      (setCursor s i app ((c % app.Targets.length : Nat) + 1))
      { app with Current := ((c % app.Targets.length : Nat) + 1 : Int) }
      (c % app.Targets.length + 1) 1 [app.Targets.getD (c % app.Targets.length) ""] 1 4
      hl (setCursor_get_self s i app _ ha) hne haddr (by push_cast; rfl)
      (Nat.succ_le_of_lt hlt) hctx (by norm_num) (by omega)
    simp only [serveConnect, connect, hcall, if_neg hta, hfail, Bool.false_eq_true,
      if_false]
    refine ⟨hloop.1, ?_, ?_⟩
    · rw [hloop.2.1, List.length_singleton, Nat.add_comm]
    · rw [hloop.2.2, Nat.add_comm]

/-- C5 as amended, at the sample registry: with five ticks `connect` has given
up after five dials, and with four ticks it has made its five dials and is
still waiting for the fifth tick. -/
theorem connect_retry_budget_witness :
    (∀ t ∈ ["10.0.0.1:80", "10.0.0.2:80", "10.0.0.3:80"], t ≠ "") ∧
    (serveConnect (fun _ _ => none) false (List.replicate 5 ⟨false, true, false⟩)
      (NewServer (NewApps sampleConfig)) 8080).outcome = .failed .ErrTargetUnavailable ∧
    (serveConnect (fun _ _ => none) false (List.replicate 5 ⟨false, true, false⟩)
      (NewServer (NewApps sampleConfig)) 8080).dialed.length = 5 ∧
    (serveConnect (fun _ _ => none) false (List.replicate 4 ⟨false, true, false⟩)
      (NewServer (NewApps sampleConfig)) 8080).outcome = .waiting ∧
    (serveConnect (fun _ _ => none) false (List.replicate 4 ⟨false, true, false⟩)
      (NewServer (NewApps sampleConfig)) 8080).dialed.length = 5 := by
  have haddr : ∀ t ∈ ["10.0.0.1:80", "10.0.0.2:80", "10.0.0.3:80"], t ≠ "" := by decide
  have h5 := (connect_retry_budget (fun _ _ => none)
    (List.replicate 5 ⟨false, true, false⟩)
    (NewServer (NewApps sampleConfig)) 8080 0
    ⟨"web", [8080, 8081], ["10.0.0.1:80", "10.0.0.2:80", "10.0.0.3:80"], 0⟩
    (Reachable.init sampleConfig) rfl rfl (by decide) haddr (fun _ _ => rfl)
    (by decide)).1 (by decide)
  have h4 := (connect_retry_budget (fun _ _ => none)
    (List.replicate 4 ⟨false, true, false⟩)
    (NewServer (NewApps sampleConfig)) 8080 0
    ⟨"web", [8080, 8081], ["10.0.0.1:80", "10.0.0.2:80", "10.0.0.3:80"], 0⟩
    (Reachable.init sampleConfig) rfl rfl (by decide) haddr (fun _ _ => rfl)
    (by decide)).2 (by decide)
  exact ⟨haddr, h5.1, h5.2.1, h4.1, h4.2.1⟩

/-- C6: success after transient failures. On a reachable server, for a port
whose application has `N ≥ 1` targets, all of them addresses (non-empty
strings), with its cursor at `c` on entry: when the first `K < 5` dials of
`connect(p, 5)` fail, dial `K + 1` is accepted, the context is never done and `K`
ticks arrive, `connect` returns the connection that dial produced together
with the address it was dialled at, which is `Targets[(c + K) mod N]`, after
exactly `K + 1` resolves and `K + 1` dials. -/
theorem connect_succeeds_after_failures (K : Nat) (dial : Dialer) (waits : List Sample)
    (s : Server) (p : Int) (i : Nat) (app : App) (c : Nat)
    (hK : K < 5)
    (hr : Reachable s) (hl : s.targetLookup p = some i) (ha : s.apps[i]? = some app)
    (hN : 1 ≤ app.Targets.length) (haddr : ∀ t ∈ app.Targets, t ≠ "")
    (hc : app.Current = (c : Int))
    (hfail : ∀ j, j < K → ∀ a, dial j a = none)
    (hok : ∀ a, (dial K a).isSome = true)
    (hctx : ∀ x ∈ waits, x.ctxDone = false)
    (hticks : K ≤ waits.countP (fun x => x.tick)) :
    ∃ addr conn,
      app.Targets[(c + K) % app.Targets.length]? = some addr ∧
      dial K addr = some conn ∧
      (serveConnect dial false waits s p).outcome = .connected conn addr ∧
      (serveConnect dial false waits s p).dialed.length = K + 1 ∧
      (serveConnect dial false waits s p).dialed.getLast? = some addr ∧
      (serveConnect dial false waits s p).resolves = K + 1 := by
  have hne : app.Targets ≠ [] := List.length_pos.mp hN
  obtain ⟨c1, hc1, hle1⟩ := Reachable_cursor_at s hr i app ha
  have hcc : c1 = c := by rw [hc] at hc1; exact_mod_cast hc1.symm
  subst hcc
  have hlt : c1 % app.Targets.length < app.Targets.length := Nat.mod_lt c1 hN
  have hcall := TargetURL_owned s p i app c1 hl ha hne hc hle1
  have hta := haddr _ (getD_mem_of_lt app.Targets _ hlt)
  cases K with
  | zero =>
    obtain ⟨conn, hconn⟩ := Option.isSome_iff_exists.mp
      (hok (app.Targets.getD (c1 % app.Targets.length) ""))
    refine ⟨app.Targets.getD (c1 % app.Targets.length) "", conn, ?_, hconn, ?_⟩
    · rw [Nat.add_zero, List.getD_eq_getElem _ _ hlt]
      exact List.getElem?_eq_getElem hlt
    · simp only [serveConnect, connect, hcall, if_neg hta, hconn, Bool.false_eq_true,
        if_false]
      exact ⟨trivial, rfl, rfl, trivial⟩
  | succ m =>
    have hnone : dial 0 (app.Targets.getD (c1 % app.Targets.length) "") = none :=
      hfail 0 (Nat.succ_pos m) _
    have hlen : [app.Targets.getD (c1 % app.Targets.length) ""].length + m = m + 1 := by
      rw [List.length_singleton, Nat.add_comm]
    obtain ⟨addr, conn, h1, h2, h3, h4, h5, h6⟩ :=
      retryLoop_success dial p 5 i waits
        (setCursor s i app ((c1 % app.Targets.length : Nat) + 1))
        { app with Current := ((c1 % app.Targets.length : Nat) + 1 : Int) }
        (c1 % app.Targets.length + 1) 1 [app.Targets.getD (c1 % app.Targets.length) ""] 1 m
        hl (setCursor_get_self s i app _ ha) hne haddr (by push_cast; rfl)
        (Nat.succ_le_of_lt hlt) hctx
        (by rw [hlen]; exact hfail) (by rw [hlen]; exact hok)
        (by omega) hticks
    rw [hlen] at h2 h4
    have hidx : (c1 % app.Targets.length + 1 + m) % app.Targets.length
        = (c1 + (m + 1)) % app.Targets.length := by
      rw [Nat.add_assoc, Nat.mod_add_mod, Nat.add_comm 1 m]
    simp only [serveConnect, connect, hcall, if_neg hta, hnone, Bool.false_eq_true,
      if_false]
    refine ⟨addr, conn, ?_, h2, h3, ?_, h5, ?_⟩
    · rw [← hidx]; exact h1
    · rw [h4]
    · rw [h6]; omega

/-- C6, at the sample registry: two failed dials, then an accepted one. -/
theorem connect_succeeds_after_failures_witness :
    (2 : Nat) < 5 ∧
    (serveConnect (fun n _ => if n = 2 then some ⟨7⟩ else none) false
      [⟨false, true, false⟩, ⟨false, false, false⟩, ⟨false, true, false⟩]
      (NewServer (NewApps sampleConfig)) 8080).outcome =
      .connected ⟨7⟩ "10.0.0.3:80" := by
  obtain ⟨addr, conn, h1, h2, h3, -⟩ :=
    connect_succeeds_after_failures 2 (fun n _ => if n = 2 then some ⟨7⟩ else none)
      [⟨false, true, false⟩, ⟨false, false, false⟩, ⟨false, true, false⟩]
      (NewServer (NewApps sampleConfig)) 8080 0
      ⟨"web", [8080, 8081], ["10.0.0.1:80", "10.0.0.2:80", "10.0.0.3:80"], 0⟩ 0
      (by decide) (Reachable.init sampleConfig) rfl rfl (by decide) (by decide) rfl
      (by intro j hj a; have : j ≠ 2 := by omega
          simp [this])
      (by intro a; rfl) (by decide) (by decide)
  have haddr : addr = "10.0.0.3:80" := by simpa using h1.symm
  have hconn : conn = ⟨7⟩ := by simpa using h2.symm
  rw [haddr, hconn] at h3
  exact ⟨by decide, h3⟩

/-- C9: cancellation of a connection attempt. On a reachable server, for a
port whose application has at least one target, all of them addresses
(non-empty strings), a `connect` that finds the context done at its first
`select` returns `ctx.Err()` without any dial; and in every state of its retry
loop, a `select` that sees the context done and no tick returns `ctx.Err()`
with no further resolve or dial. -/
theorem connect_cancelled (s : Server) (p : Int) (i : Nat) (app : App)
    (hr : Reachable s) (hl : s.targetLookup p = some i) (ha : s.apps[i]? = some app)
    (hN : 1 ≤ app.Targets.length) (haddr : ∀ t ∈ app.Targets, t ≠ "") :
    (∀ (dial : Dialer) (waits : List Sample) (r : Int),
      (connect dial true waits s p r).outcome = .failed .ctxErr ∧
      (connect dial true waits s p r).dialed = []) ∧
    (∀ (dial : Dialer) (r : Int) (x : Sample) (rest : List Sample) (s1 : Server)
      (try_ : Int) (dialed : List String) (resolves : Nat),
      x.ctxDone = true → x.tick = false →
      retryLoop dial p r (x :: rest) s1 try_ dialed resolves =
        ⟨.failed .ctxErr, dialed, resolves, s1⟩) := by
  have hne : app.Targets ≠ [] := List.length_pos.mp hN
  obtain ⟨c, hc, hle⟩ := Reachable_cursor_at s hr i app ha
  have hlt : c % app.Targets.length < app.Targets.length := Nat.mod_lt c hN
  have hcall := TargetURL_owned s p i app c hl ha hne hc hle
  have hta := haddr _ (getD_mem_of_lt app.Targets _ hlt)
  constructor
  · intro dial waits r
    simp only [connect, hcall, if_neg hta, if_true]
    exact ⟨trivial, trivial⟩
  · intro dial r x rest s1 try_ dialed resolves hx ht
    simp only [retryLoop, selectWait_done x hx ht]

/-- C9, at the sample registry: a context done on entry, and a context done
at the second wait of a retry loop. -/
theorem connect_cancelled_witness :
    (connect (fun _ _ => some ⟨0⟩) true [] (NewServer (NewApps sampleConfig)) 8080 5).outcome
      = .failed .ctxErr ∧
    (connect (fun _ _ => some ⟨0⟩) true [] (NewServer (NewApps sampleConfig)) 8080 5).dialed
      = [] ∧
    (retryLoop (fun _ _ => none) 8080 5 [⟨true, false, false⟩, ⟨false, true, false⟩]
      (NewServer (NewApps sampleConfig)) 1 ["10.0.0.1:80"] 1).outcome = .failed .ctxErr := by
  have h := connect_cancelled (NewServer (NewApps sampleConfig)) 8080 0
    ⟨"web", [8080, 8081], ["10.0.0.1:80", "10.0.0.2:80", "10.0.0.3:80"], 0⟩
    (Reachable.init sampleConfig) rfl rfl (by decide) (by decide)
  refine ⟨(h.1 _ _ _).1, (h.1 _ _ _).2, ?_⟩
  rw [h.2 _ _ _ _ _ _ _ _ rfl rfl]

/-! ## Claims about the listener -/

theorem listenLoop_conns_then_done (k : Nat) :
    ∀ st : ListenState,
      listenLoop (List.replicate k .newConn ++ [.ctxDone]) st =
        ⟨st.acceptors + k + 1, st.handlers + k, true⟩ := by
  induction k with
  | zero => intro st; rfl
  | succ k ih =>
    intro st
    rw [List.replicate_succ, List.cons_append]
    simp only [listenLoop, ih]
    simp only [ListenState.mk.injEq, and_true]
    omega

/-- C10 fails on the code: `listen` starts its accept goroutine inside the
`for` loop, once per iteration. After `k` connections and then the done signal
it has started `k + 1` acceptors (and `k` handlers), not one: two acceptors
after a single connection. -/
theorem listen_spawns_acceptor_per_iteration (k : Nat) :
    listen true (List.replicate k .newConn ++ [.ctxDone]) = ⟨k + 1, k, true⟩ ∧
    (listen true [.newConn, .ctxDone]).acceptors = 2 := by
  constructor
  · simp only [listen, if_true, listenLoop_conns_then_done]
    simp
  · rfl

/-! ## Calls on the ports of another application -/

theorem resultsFor_cons (p r : Int) (x : Except Panic String) (l : List CallRecord) :
    resultsFor p ((r, x) :: l) = if r = p then x :: resultsFor p l else resultsFor p l := by
  by_cases h : r = p
  · simp [resultsFor, h]
  · simp [resultsFor, h]

theorem Serviceable_of_eq (b : Nat) (s u : Server) (h : Serviceable b s)
    (hb : u.apps[b]? = s.apps[b]?) : Serviceable b u := by
  obtain ⟨B, c, h1, h2, h3, h4⟩ := h
  exact ⟨B, c, hb.trans h1, h2, h3, h4⟩

/-- A call on a port of a serviceable application returns, and changes that
application only. -/
theorem TargetURL_on (b : Nat) (s : Server) (r : Int) (hs : Serviceable b s)
    (hl : s.targetLookup r = some b) :
    ∃ t u, TargetURL s r = .ok (t, u) ∧ u.targetLookup = s.targetLookup ∧
      (∀ j, j ≠ b → u.apps[j]? = s.apps[j]?) ∧ Serviceable b u := by
  obtain ⟨B, c, h1, h2, h3, h4⟩ := hs
  have hpos : 0 < B.Targets.length := List.length_pos.mpr h2
  refine ⟨_, _, TargetURL_owned s r b B c hl h1 h2 h3 h4, rfl, ?_, ?_⟩
  · intro j hj
    exact setCursor_get_other s b j B _ hj
  · exact ⟨{ B with Current := ((c % B.Targets.length : Nat) + 1 : Int) },
      c % B.Targets.length + 1, setCursor_get_self s b B _ h1, h2, by push_cast; rfl,
      Nat.succ_le_of_lt (Nat.mod_lt _ hpos)⟩

/-- On two servers that agree off `b`, a call on a port of another application
does the same on both: the same panic, or the same result and servers that
again agree off `b`, with application `b` untouched. -/
theorem TargetURL_off (b : Nat) (s1 s2 : Server) (r : Int) (j : Nat)
    (hag : AgreeOff b s1 s2) (hl : s1.targetLookup r = some j) (hj : j ≠ b) :
    (∃ e, TargetURL s1 r = .error e ∧ TargetURL s2 r = .error e) ∨
    (∃ t u1 u2, TargetURL s1 r = .ok (t, u1) ∧ TargetURL s2 r = .ok (t, u2) ∧
      AgreeOff b u1 u2 ∧ u1.targetLookup = s1.targetLookup ∧
      u1.apps[b]? = s1.apps[b]? ∧ u2.apps[b]? = s2.apps[b]?) := by
  have hl2 : s2.targetLookup r = some j := by rw [← hag.1]; exact hl
  have hsame : s2.apps[j]? = s1.apps[j]? := (hag.2 j hj).symm
  rw [TargetURL_eq s1 r, TargetURL_eq s2 r, hl, hl2]
  simp only [hsame]
  cases ha : s1.apps[j]? with
  | none => exact Or.inl ⟨_, rfl, rfl⟩
  | some app =>
    simp only
    cases hstep : cursorStep app with
    | error e => exact Or.inl ⟨e, rfl, rfl⟩
    | ok x =>
      obtain ⟨t, c⟩ := x
      refine Or.inr ⟨t, setCursor s1 j app c, setCursor s2 j app c, rfl, rfl, ⟨hag.1, ?_⟩,
        rfl, setCursor_get_other s1 j b app c (Ne.symm hj),
        setCursor_get_other s2 j b app c (Ne.symm hj)⟩
      intro k hk
      by_cases hkj : k = j
      · subst hkj
        rw [setCursor_get_self s1 k app c ha,
          setCursor_get_self s2 k app c (hsame.trans ha)]
      · rw [setCursor_get_other s1 j k app c hkj, setCursor_get_other s2 j k app c hkj]
        exact hag.2 k hk

/-- The results for `p` of a run do not change when the calls on `q`, a port
of another and serviceable application `b`, are taken out of it. -/
theorem runs_agree (p q : Int) (a b : Nat) (hab : a ≠ b) (calls : List Int) :
    ∀ s1 s2 : Server, AgreeOff b s1 s2 → Serviceable b s1 → Serviceable b s2 →
      s1.targetLookup p = some a → s1.targetLookup q = some b →
      resultsFor p (runCalls s1 calls) =
        resultsFor p (runCalls s2 (calls.filter fun r => decide (r ≠ q))) := by
  induction calls with
  | nil => intro _ _ _ _ _ _ _; rfl
  | cons r rest ih =>
    intro s1 s2 hag h1 h2 hp hq
    by_cases hr : r = q
    · subst hr
      have hrp : r ≠ p := by
        intro h; rw [h, hp] at hq; exact hab (Option.some.inj hq)
      obtain ⟨t, u1, hcall, hlk, hoff, hsv⟩ := TargetURL_on b s1 r h1 hq
      rw [List.filter_cons_of_neg (by simp)]
      simp only [runCalls, hcall]
      rw [resultsFor_cons, if_neg hrp]
      exact ih u1 s2 ⟨hlk.trans hag.1, fun j hj => (hoff j hj).trans (hag.2 j hj)⟩ hsv h2
        (by rw [hlk]; exact hp) (by rw [hlk]; exact hq)
    · rw [List.filter_cons_of_pos (by simpa using hr)]
      cases hlr : s1.targetLookup r with
      | none =>
        have c1 := TargetURL_unmapped s1 r hlr
        have c2 := TargetURL_unmapped s2 r (by rw [← hag.1]; exact hlr)
        simp only [runCalls, c1, c2, resultsFor_cons]
        rw [ih s1 s2 hag h1 h2 hp hq]
      | some j =>
        by_cases hj : j = b
        · subst hj
          have hrp : r ≠ p := by
            intro h; rw [h, hp] at hlr; exact hab (Option.some.inj hlr)
          obtain ⟨t1, u1, hc1, hlk1, hoff1, hsv1⟩ := TargetURL_on j s1 r h1 hlr
          obtain ⟨t2, u2, hc2, hlk2, hoff2, hsv2⟩ :=
            TargetURL_on j s2 r h2 (by rw [← hag.1]; exact hlr)
          simp only [runCalls, hc1, hc2, resultsFor_cons, if_neg hrp]
          exact ih u1 u2
            ⟨by rw [hlk1, hlk2]; exact hag.1,
              fun k hk => (hoff1 k hk).trans ((hag.2 k hk).trans (hoff2 k hk).symm)⟩
            hsv1 hsv2 (by rw [hlk1]; exact hp) (by rw [hlk1]; exact hq)
        · rcases TargetURL_off b s1 s2 r j hag hlr hj with
            ⟨e, c1, c2⟩ | ⟨t, u1, u2, c1, c2, hag1, hlk, hb1, hb2⟩
          · simp only [runCalls, c1, c2]
          · simp only [runCalls, c1, c2, resultsFor_cons]
            rw [ih u1 u2 hag1 (Serviceable_of_eq b s1 u1 h1 hb1)
              (Serviceable_of_eq b s2 u2 h2 hb2) (by rw [hlk]; exact hp)
              (by rw [hlk]; exact hq)]

/-- Where the other application has a target the cursors stay apart. On a
reachable server whose lookup gives port `p` to application `a` and port `q` to
a different application `b` that has at least one target, a `TargetURL(q)` call
leaves the lookup and the whole record of `a` (cursor and targets) as they
were, and for every finite sequence of calls the results returned for `p` are
those of the run from which the calls on `q` are deleted. -/
theorem frame_when_other_has_target (s : Server) (p q : Int) (a b : Nat) (B : App)
    (hr : Reachable s)
    (hp : s.targetLookup p = some a) (hq : s.targetLookup q = some b) (hab : a ≠ b)
    (hB : s.apps[b]? = some B) (hN : 1 ≤ B.Targets.length) :
    (∀ (t : String) (u : Server), TargetURL s q = .ok (t, u) →
      u.targetLookup = s.targetLookup ∧ u.apps[a]? = s.apps[a]?) ∧
    (∀ calls : List Int,
      resultsFor p (runCalls s calls) =
        resultsFor p (runCalls s (calls.filter fun r => decide (r ≠ q)))) := by
  obtain ⟨c, hc, hle⟩ := Reachable_cursor_at s hr b B hB
  have hsv : Serviceable b s := ⟨B, c, hB, List.length_pos.mp hN, hc, hle⟩
  constructor
  · intro t u hcall
    obtain ⟨t1, u1, hcall1, hlk, hoff, -⟩ := TargetURL_on b s q hsv hq
    rw [hcall1] at hcall
    simp only [Except.ok.injEq, Prod.mk.injEq] at hcall
    rw [← hcall.2]
    exact ⟨hlk, hoff a hab⟩
  · intro calls
    exact runs_agree p q a b hab calls s s ⟨rfl, fun _ _ => rfl⟩ hsv hsv hp hq

/-- C7 fails on the code: ports 8080 and 9090 belong to two different
applications of the freshly built server, the second without a target. In the
run `[9090, 8080]` the call on 9090 panics with a division by zero, which ends
the run before the call on 8080, so no result is returned for 8080; in the run
with the call on 9090 deleted, `[8080]`, the call returns the target. The
results for 8080 differ between the two runs. -/
theorem cross_port_panic_ends_run :
    (NewServer (NewApps emptyTargetsConfig)).targetLookup 8080 = some 0 ∧
    (NewServer (NewApps emptyTargetsConfig)).targetLookup 9090 = some 1 ∧
    runCalls (NewServer (NewApps emptyTargetsConfig)) [9090, 8080] =
      [(9090, .error .divideByZero)] ∧
    resultsFor 8080 (runCalls (NewServer (NewApps emptyTargetsConfig)) [9090, 8080]) = [] ∧
    resultsFor 8080 (runCalls (NewServer (NewApps emptyTargetsConfig))
      ([9090, 8080].filter fun r => decide (r ≠ 9090))) = [.ok "10.0.0.1:80"] :=
  ⟨rfl, rfl, rfl, rfl, rfl⟩

end TcpProxy
